import Mathlib

/-!
# Documentation-Query: ingestion and retrieval pipeline (`src/index.js`)

A shallow embedding of `src/index.js`.  JavaScript strings are lists of characters, the
asynchronous functions are pure functions that return the sequence of observable effects
(console output and requests to the collaborators) together with the value or the raised
error, and the collaborators (HTTP fetch, DOM parser, vector store, console input) are
fields of an environment record.
-/

namespace DocQuery

/-! ## Strings and whitespace -/

/-- A JavaScript string. -/
abbrev JSString := List Char

/-- The characters matched by the regular expression class `\s`, which are also the
characters removed by `String.prototype.trim`: the ECMAScript WhiteSpace and
LineTerminator code points. -/
def isJsSpace (c : Char) : Bool :=
  let n := c.toNat
  n == 0x09 || n == 0x0A || n == 0x0B || n == 0x0C || n == 0x0D || n == 0x20 ||
  n == 0xA0 || n == 0x1680 || (0x2000 ≤ n && n ≤ 0x200A) || n == 0x2028 || n == 0x2029 ||
  n == 0x202F || n == 0x205F || n == 0x3000 || n == 0xFEFF

/-- The scan of `replace(/\s+/g, " ")`: `inRun` tells that the previous character belonged
to the whitespace run being matched, whose single replacement space is already emitted. -/
def replaceWsAux : Bool → JSString → JSString
  | _, [] => []
  | inRun, c :: cs =>
    if isJsSpace c then
      if inRun then replaceWsAux true cs else ' ' :: replaceWsAux true cs
    else c :: replaceWsAux false cs

/-- `s.replace(/\s+/g, " ")`: every maximal whitespace run becomes one space. -/
def replaceWs (s : JSString) : JSString := replaceWsAux false s

/-- `s.trim()`: leading and trailing whitespace removed. -/
def trim (s : JSString) : JSString := (s.dropWhile isJsSpace).rdropWhile isJsSpace

/-- `textContent.replace(/\s+/g, " ").trim()` (index.js line 43). -/
def normalise (textContent : JSString) : JSString := trim (replaceWs textContent)

/-! ## Numbers -/

/-- The decimal digit with value `d`. -/
def digitChar (d : Nat) : Char := Char.ofNat (48 + d)

/-- Digits of `n`, most significant first, with `fuel` bounding the number of digits. -/
def decimalFuel : Nat → Nat → JSString
  | 0, _ => []
  | fuel + 1, n =>
    if n < 10 then [digitChar n] else decimalFuel fuel (n / 10) ++ [digitChar (n % 10)]

/-- The decimal representation of a non-negative integer with no leading zeroes (`"0"` for
zero): the string a template literal or `toFixed` produces for an integer below `10^21`. -/
def decimal (n : Nat) : JSString := decimalFuel (n + 1) n

/-- The integer `n` for which `n / 10^f - x` is as close to zero as possible, the larger
one when there are two, for the non-negative rational `x = num / den`. -/
def nearestScaled (num den f : Nat) : Nat := (2 * num * 10 ^ f + den) / (2 * den)

/-- `Number.prototype.toFixed(f)` on a finite number whose exact value is the rational `x`
(ECMAScript 21.1.3.3).  `numberToString` is the engine's `Number::toString`, used for
magnitudes of at least `10^21`. -/
def toFixed (numberToString : ℚ → JSString) (x : ℚ) (f : Nat) : JSString :=
  let s : JSString := if x.num < 0 then ['-'] else []
  let num := x.num.natAbs
  if 10 ^ 21 * x.den ≤ num then s ++ numberToString (mkRat num x.den)
  else
    let n := nearestScaled num x.den f
    let m := decimal n
    let m := if m.length ≤ f then List.replicate (f + 1 - m.length) '0' ++ m else m
    let k := m.length
    if f ≠ 0 then s ++ (m.take (k - f) ++ '.' :: m.drop (k - f)) else s ++ m

/-! ## Data model, effects and collaborators -/

/-- A JavaScript error value (what a rejected promise carries). -/
abbrev JSError := String

/-- An element of the `pages` argument: `{ url }`. -/
structure Page where
  url : JSString
  deriving DecidableEq

/-- The response of the HTTP collaborator: its status and the outcome of `response.text()`. -/
structure Response where
  status : Nat
  text : Except JSError JSString

/-- An element of `result.data.Get.DocumentationPage`; `certainty` is the exact value of
`page._additional.certainty`. -/
structure QueryMatch where
  url : JSString
  content : JSString
  certainty : ℚ
  deriving DecidableEq

/-- An entry of `schema.properties`. -/
structure SchemaProperty where
  name : String
  dataType : List String
  description : String
  deriving DecidableEq

/-- The object passed to `classCreator().withClass`. -/
structure ClassSchema where
  className : String
  description : String
  vectorizer : String
  vectorIndexType : String
  properties : List SchemaProperty
  deriving DecidableEq

/-- An observable effect: console output or a request issued to a collaborator. -/
inductive Event
  | consoleLog (args : List JSString)
  | consoleError (message : JSString) (error : JSError)
  | schemaDeleteAll
  | schemaClassCreate (schema : ClassSchema)
  | httpGet (url : JSString)
  | dataCreate (className : JSString) (url content : JSString)
  | nearTextQuery (className fields : JSString) (concepts : List JSString) (certainty : ℚ)
  | question (query : JSString)
  deriving DecidableEq

/-- The collaborators.  `fetch` and `dataCreate` take the number of the loop iteration that
issues the call, so that the same URL may meet different outcomes. -/
structure Env where
  /-- `client.schema.deleteAll()` -/
  deleteAll : Except JSError Unit
  /-- `client.schema.classCreator().withClass(schema).do()` -/
  classCreate : ClassSchema → Except JSError Unit
  /-- `fetch(url)` of node-fetch: rejects on a network error, resolves with a response
  otherwise, whatever its status. -/
  fetch : Nat → JSString → Except JSError Response
  /-- `new JSDOM(html).window.document.body.textContent`; `none` stands for `null`. -/
  bodyTextContent : JSString → Except JSError (Option JSString)
  /-- `client.data.creator().withClassName(..).withProperties({ url, content }).do()` -/
  dataCreate : Nat → JSString → JSString → Except JSError Unit
  /-- the near-text query followed by `result.data.Get.DocumentationPage`, given the
  concepts and the minimum certainty sent -/
  nearText : List JSString → ℚ → Except JSError (List QueryMatch)
  /-- the line the user answers to `rl.question` -/
  answer : JSString
  /-- `Number::toString` of the engine -/
  numberToString : ℚ → JSString

/-- The run of an asynchronous function: the effects observed, in order, and the value the
promise is fulfilled with or the error it is rejected with. -/
structure Run (α : Type) where
  trace : List Event
  result : Except JSError α

namespace Run

/-- Sequencing of `await`: a rejection skips what follows. -/
def bind {α β : Type} (m : Run α) (f : α → Run β) : Run β :=
  match m.result with
  | .error e => ⟨m.trace, .error e⟩
  | .ok a => ⟨m.trace ++ (f a).trace, (f a).result⟩

instance : Monad Run where
  pure a := ⟨[], .ok a⟩
  bind := Run.bind

/-- An effect that cannot fail. -/
def emit (ev : Event) : Run Unit := ⟨[ev], .ok ()⟩

/-- A request to a collaborator together with its outcome. -/
def request {α : Type} (ev : Event) (outcome : Except JSError α) : Run α := ⟨[ev], outcome⟩

/-- A step with no observable effect that may throw. -/
def lift {α : Type} (outcome : Except JSError α) : Run α := ⟨[], outcome⟩

/-- The statement `try { body } catch (error) { handler }`, and `promise.catch(handler)`. -/
def tryCatch {α : Type} (body : Run α) (handler : JSError → Run α) : Run α :=
  match body.result with
  | .ok _ => body
  | .error e => ⟨body.trace ++ (handler e).trace, (handler e).result⟩

end Run

open Run

/-! ## The program -/

/-- The `schema` object of `createSchema`. -/
def documentationPageSchema : ClassSchema where
  className := "DocumentationPage"
  description := "Documentation pages with content and URLs"
  vectorizer := "text2vec-transformers"
  vectorIndexType := "hnsw"
  properties :=
    [ { name := "url", dataType := ["string"], description := "URL of the documentation page" },
      { name := "content", dataType := ["text"],
        description := "Content of the documentation page" } ]

/-- `createSchema` (index.js lines 11-35). -/
def createSchema (env : Env) : Run Unit := do
  request .schemaDeleteAll env.deleteAll
  request (.schemaClassCreate documentationPageSchema) (env.classCreate documentationPageSchema)
  emit (.consoleLog ["✅ Schema created successfully!".toList])

/-- The first argument of `console.error` in the `catch` block of `fetchPageContent`. -/
def fetchFailureMessage (url : JSString) : JSString :=
  "❌ Failed to fetch content from ".toList ++ url ++ ":".toList

/-- The `try` block of `fetchPageContent` (index.js lines 39-43). -/
def fetchPageContentTry (env : Env) (call : Nat) (url : JSString) : Run JSString := do
  let response ← request (.httpGet url) (env.fetch call url)
  let html ← lift response.text
  let textContent ← lift (env.bodyTextContent html)
  pure (normalise (textContent.getD []))

/-- `fetchPageContent` (index.js lines 37-48). -/
def fetchPageContent (env : Env) (call : Nat) (url : JSString) : Run JSString :=
  tryCatch (fetchPageContentTry env call url) fun error => do
    emit (.consoleError (fetchFailureMessage url) error)
    pure []

/-- The body of the `for` loop of `addDocumentationPages` for the page at position `i`;
the result tells nothing, a rejection leaves the loop. -/
def ingestPage (env : Env) (i : Nat) (page : Page) : Run Unit := do
  let content ← fetchPageContent env i page.url
  if content = [] then pure ()
  else
    request (.dataCreate "DocumentationPage".toList page.url content)
      (env.dataCreate i page.url content)

/-- The `for (const page of pages)` loop, from position `i` on. -/
def ingestFrom (env : Env) : Nat → List Page → Run Unit
  | _, [] => pure ()
  | i, page :: rest => do
    ingestPage env i page
    ingestFrom env (i + 1) rest

/-- `addDocumentationPages` (index.js lines 50-62). -/
def addDocumentationPages (env : Env) (pages : List Page) : Run Unit := do
  ingestFrom env 0 pages
  emit (.consoleLog ["✅ Documentation pages added successfully!".toList])

/-- The `certainty: 0.7` of the near-text query. -/
def minimumCertainty : ℚ := mkRat 7 10

/-- The string logged for the match at position `index` of `pages.forEach`. -/
def matchLine (env : Env) (index : Nat) (page : QueryMatch) : JSString :=
  " ".toList ++ decimal (index + 1) ++ ". URL: ".toList ++ page.url ++
    "\n    Certainty: ".toList ++ toFixed env.numberToString page.certainty 2 ++ "\n".toList

/-- `pages.forEach((page, index) => console.log(..))`, from position `index` on. -/
def reportMatches (env : Env) : Nat → List QueryMatch → Run Unit
  | _, [] => pure ()
  | index, page :: rest => do
    emit (.consoleLog [matchLine env index page])
    reportMatches env (index + 1) rest

/-- The request of `findRelevantDocumentation` to the store. -/
def nearTextEvent (userPrompt : JSString) : Event :=
  .nearTextQuery "DocumentationPage".toList "url content _additional \x7bcertainty\x7d".toList
    [userPrompt] minimumCertainty

/-- `findRelevantDocumentation` (index.js lines 64-97). -/
def findRelevantDocumentation (env : Env) (userPrompt : JSString) : Run Unit := do
  let pages ← request (nearTextEvent userPrompt) (env.nearText [userPrompt] minimumCertainty)
  emit (.consoleLog ["🔍 Searching for relevant documentation based on prompt:".toList, userPrompt])
  if pages.length = 0 then
    emit (.consoleLog ["❗ No relevant documentation found for:".toList, userPrompt])
  else do
    emit (.consoleLog ["✅ Found ".toList ++ decimal pages.length ++
      " relevant documentation link(s) for prompt: \"".toList ++ userPrompt ++ "\"".toList])
    reportMatches env 0 pages

/-- `promptUserInput` (index.js lines 99-111). -/
def promptUserInput (env : Env) (query : JSString) : Run JSString :=
  request (.question query) (.ok env.answer)

/-- The `docs` list of `main`. -/
def docs : List Page :=
  [ ⟨"https://www.loveandlemons.com/homemade-pizza/".toList⟩,
    ⟨"https://www.interaction-design.org/literature/topics/color-theory".toList⟩,
    ⟨"https://api-docs.deepseek.com/".toList⟩,
    ⟨"https://www.dndbeyond.com/sources/dnd/free-rules/creating-a-character".toList⟩,
    ⟨"https://stardewvalleywiki.com/Crops".toList⟩ ]

/-- `main` (index.js lines 113-136). -/
def main (env : Env) : Run Unit := do
  createSchema env
  addDocumentationPages env docs
  let userPrompt ← promptUserInput env "💬 Enter your documentation query: ".toList
  findRelevantDocumentation env userPrompt

/-- The top-level statement `main().catch((error) => console.error(..))`
(index.js lines 138-140). -/
def topLevel (env : Env) : Run Unit :=
  tryCatch (main env) fun error =>
    emit (.consoleError "❌ Error in main execution:".toList error)

/-- The exit status of the Node process once the top-level promise has settled: the source
never calls `process.exit` nor assigns `process.exitCode`, so the status is `1` exactly when
the promise is rejected with nobody handling it. -/
def exitStatus (settled : Run Unit) : Nat :=
  match settled.result with
  | .ok _ => 0
  | .error _ => 1

/-! ## Notions used by the specification -/

/-- The maximal runs of characters that are not separators, in order. -/
def splitRuns (sep : Char → Bool) : JSString → List JSString
  | [] => []
  | c :: cs =>
    if sep c then splitRuns sep cs
    else (c :: cs.takeWhile fun d => !sep d) :: splitRuns sep (cs.dropWhile fun d => !sep d)
termination_by s => s.length
decreasing_by
  · simp
  · have h := (List.dropWhile_sublist (l := cs) fun d => !sep d).length_le
    simp only [List.length_cons]
    omega

/-- The words of a text: its maximal runs of non-whitespace characters, in order. -/
def words (s : JSString) : List JSString := splitRuns isJsSpace s

/-- A word list as `words` produces them: every word is non-empty and free of whitespace. -/
def WordList (ws : List JSString) : Prop :=
  ∀ w ∈ ws, w ≠ [] ∧ ∀ c ∈ w, isJsSpace c = false

/-- The words joined by single spaces. -/
def joinWords (ws : List JSString) : JSString := [' '].intercalate ws

/-- No two consecutive whitespace characters. -/
def NoDoubleSpace (s : JSString) : Prop :=
  List.Chain' (fun a b => ¬(isJsSpace a = true ∧ isJsSpace b = true)) s

/-- No leading and no trailing whitespace character. -/
def Trimmed (s : JSString) : Prop :=
  (∀ c, s.head? = some c → isJsSpace c = false) ∧
  (∀ c, s.getLast? = some c → isJsSpace c = false)

/-- The hundredth nearest to `x` (the upper one when two are equally near), counted in
hundredths. -/
def roundHundredths (x : ℚ) : ℤ := ⌊x * 100 + 1 / 2⌋

/-- The decimal notation of `n` hundredths with two decimal places. -/
def showHundredths (n : Nat) : JSString :=
  decimal (n / 100) ++ ['.', digitChar (n / 10 % 10), digitChar (n % 10)]

/-- The `(url, content)` pairs of the store writes requested in a trace, in order. -/
def writesOf : List Event → List (JSString × JSString)
  | [] => []
  | .dataCreate _ url content :: rest => (url, content) :: writesOf rest
  | _ :: rest => writesOf rest

/-- Whether the event is a write to the store. -/
def Event.isStoreWrite : Event → Bool
  | .dataCreate _ _ _ => true
  | _ => false

/-- Whether the event is a query to the store. -/
def Event.isQuery : Event → Bool
  | .nearTextQuery _ _ _ _ => true
  | _ => false

/-- The text `fetchPageContent` returns for the page fetched at iteration `i`. -/
def extractedText (env : Env) (i : Nat) (url : JSString) : JSString :=
  match (fetchPageContent env i url).result with
  | .ok text => text
  | .error _ => []

/-- The pages, from position `i` on, restricted to those whose text is non-empty, each with
its own URL and text. -/
def expectedWrites (env : Env) : Nat → List Page → List (JSString × JSString)
  | _, [] => []
  | i, page :: rest =>
    if extractedText env i page.url = [] then expectedWrites env (i + 1) rest
    else (page.url, extractedText env i page.url) :: expectedWrites env (i + 1) rest

/-- The HTTP fetch of `url` at iteration `i`, the read of the body or the parse of the HTML
raises `e`. -/
def FetchRaises (env : Env) (i : Nat) (url : JSString) (e : JSError) : Prop :=
  env.fetch i url = .error e ∨
  (∃ r, env.fetch i url = .ok r ∧ r.text = .error e) ∨
  (∃ r html, env.fetch i url = .ok r ∧ r.text = .ok html ∧ env.bodyTextContent html = .error e)

/-- The store applies the minimum certainty it is sent: it returns no match below it. -/
def HonoursCertainty (env : Env) : Prop :=
  ∀ concepts threshold ms, env.nearText concepts threshold = .ok ms →
    ∀ m ∈ ms, threshold ≤ m.certainty

/-! ## Scenarios -/

/-- An environment in which every collaborator succeeds, every page has the body text
`" Some  text "` and the store finds nothing. -/
def quietEnv : Env where
  deleteAll := .ok ()
  classCreate _ := .ok ()
  fetch _ _ := .ok ⟨200, .ok "<html><body> Some  text </body></html>".toList⟩
  bodyTextContent _ := .ok (some " Some  text ".toList)
  dataCreate _ _ _ := .ok ()
  nearText _ _ := .ok []
  answer := "pizza dough recipe".toList
  numberToString _ := []

/-- Five seed URLs of which the third is unreachable. -/
def oneUnreachableEnv : Env :=
  { quietEnv with
    fetch := fun i _ =>
      if i = 2 then .error "ECONNREFUSED"
      else .ok ⟨200, .ok "<html><body> Some  text </body></html>".toList⟩ }

/-- A page whose body holds whitespace only. -/
def blankPageEnv : Env :=
  { quietEnv with bodyTextContent := fun _ => .ok (some " \n\t ".toList) }

/-- A server that answers every request with status 404 and an HTML error page. -/
def notFoundEnv : Env :=
  { quietEnv with
    fetch := fun _ _ => .ok ⟨404, .ok "<html><body>Not Found</body></html>".toList⟩
    bodyTextContent := fun _ => .ok (some "Not Found".toList) }

/-- A store that rejects the first write. -/
def writeFailsEnv : Env :=
  { quietEnv with
    dataCreate := fun i _ _ => if i = 0 then .error "store unavailable" else .ok () }

/-- A store that rejects the write of the second page. -/
def secondWriteFailsEnv : Env :=
  { quietEnv with
    dataCreate := fun i _ _ => if i = 1 then .error "store unavailable" else .ok () }

/-- A store whose schema reset fails. -/
def resetFailsEnv : Env :=
  { quietEnv with deleteAll := .error "store unavailable" }

/-- The pizza page, found with certainty `0.85`. -/
def pizzaMatch : QueryMatch :=
  ⟨"https://www.loveandlemons.com/homemade-pizza/".toList, "Homemade pizza".toList, mkRat 85 100⟩

/-- An unrelated page, found with certainty `0.4`. -/
def unrelatedMatch : QueryMatch :=
  ⟨"https://stardewvalleywiki.com/Crops".toList, "Crops".toList, mkRat 4 10⟩

/-- A store holding the two pages that applies the minimum certainty it is sent. -/
def thresholdStoreEnv : Env :=
  { quietEnv with
    nearText := fun _ threshold =>
      .ok ([pizzaMatch, unrelatedMatch].filter fun m => threshold ≤ m.certainty) }

/-- Two pages with the same URL. -/
def twicePages : List Page :=
  [⟨"https://api-docs.deepseek.com/".toList⟩, ⟨"https://api-docs.deepseek.com/".toList⟩]

/-! ## Whitespace normalisation -/

theorem isJsSpace_space : isJsSpace ' ' = true := by decide

theorem replaceWsAux_true_space {c : Char} (cs : JSString) (h : isJsSpace c = true) :
    replaceWsAux true (c :: cs) = replaceWsAux true cs := by
  simp [replaceWsAux, h]

theorem replaceWsAux_false_space {c : Char} (cs : JSString) (h : isJsSpace c = true) :
    replaceWsAux false (c :: cs) = ' ' :: replaceWsAux true cs := by
  simp [replaceWsAux, h]

theorem replaceWsAux_nonspace {c : Char} (b : Bool) (cs : JSString) (h : isJsSpace c = false) :
    replaceWsAux b (c :: cs) = c :: replaceWsAux false cs := by
  simp [replaceWsAux, h]

theorem replaceWsAux_word (b : Bool) (w r : JSString) (hw : ∀ c ∈ w, isJsSpace c = false) :
    replaceWsAux b (w ++ r) = w ++ replaceWsAux (b && w.isEmpty) r := by
  induction w generalizing b with
  | nil => simp
  | cons c w ih =>
    have hc : isJsSpace c = false := hw c (List.mem_cons_self _ _)
    have hw2 : ∀ d ∈ w, isJsSpace d = false := fun d hd => hw d (List.mem_cons_of_mem _ hd)
    rw [List.cons_append, replaceWsAux_nonspace b _ hc, ih false hw2]
    simp

theorem words_nil : words [] = [] := by
  rw [words, splitRuns]

theorem words_space {c : Char} (cs : JSString) (h : isJsSpace c = true) :
    words (c :: cs) = words cs := by
  rw [words, splitRuns]; simp [h, words]

theorem words_nonspace {c : Char} (cs : JSString) (h : isJsSpace c = false) :
    words (c :: cs) =
      (c :: cs.takeWhile fun d => !isJsSpace d) :: words (cs.dropWhile fun d => !isJsSpace d) := by
  rw [words, splitRuns]; simp [h, words]

theorem takeWhile_nonspace (cs : JSString) :
    ∀ c ∈ cs.takeWhile (fun d => !isJsSpace d), isJsSpace c = false := by
  intro c hc
  have := List.mem_takeWhile_imp hc
  simpa using this

theorem dropWhile_nonspace_cases (cs : JSString) :
    cs.dropWhile (fun d => !isJsSpace d) = [] ∨
    ∃ d r, cs.dropWhile (fun d => !isJsSpace d) = d :: r ∧ isJsSpace d = true := by
  induction cs with
  | nil => simp
  | cons c cs ih =>
    by_cases hc : isJsSpace c = true
    · right; exact ⟨c, cs, by simp [List.dropWhile, hc], hc⟩
    · have hc2 : isJsSpace c = false := by simpa using hc
      simpa [List.dropWhile, hc2] using ih

theorem wordList_words_aux (n : Nat) : ∀ t : JSString, t.length ≤ n → WordList (words t) := by
  induction n with
  | zero =>
    intro t ht
    have : t = [] := List.length_eq_zero.1 (by omega)
    subst this
    intro w hw; simp [words_nil] at hw
  | succ n ih =>
    intro t ht
    cases t with
    | nil => intro w hw; simp [words_nil] at hw
    | cons c cs =>
      simp only [List.length_cons] at ht
      by_cases hc : isJsSpace c = true
      · rw [words_space cs hc]
        exact ih cs (by omega)
      · have hc2 : isJsSpace c = false := by simpa using hc
        rw [words_nonspace cs hc2]
        have hlen := (List.dropWhile_sublist (l := cs) fun d => !isJsSpace d).length_le
        have ih2 := ih (cs.dropWhile fun d => !isJsSpace d) (by omega)
        intro w hw
        rcases List.mem_cons.1 hw with rfl | hw
        · refine ⟨by simp, ?_⟩
          intro d hd
          rcases List.mem_cons.1 hd with rfl | hd
          · exact hc2
          · exact takeWhile_nonspace cs d hd
        · exact ih2 w hw

theorem wordList_words (t : JSString) : WordList (words t) :=
  wordList_words_aux t.length t le_rfl

theorem joinWords_nil : joinWords [] = [] := rfl

theorem joinWords_singleton (w : JSString) : joinWords [w] = w := by
  simp [joinWords, List.intercalate, List.intersperse]

theorem joinWords_cons_cons (w x : JSString) (xs : List JSString) :
    joinWords (w :: x :: xs) = w ++ ' ' :: joinWords (x :: xs) := by
  simp [joinWords, List.intercalate, List.intersperse]

theorem wordList_tail {w : JSString} {ws : List JSString} (h : WordList (w :: ws)) :
    WordList ws := fun x hx => h x (List.mem_cons_of_mem _ hx)

/-- The text left by the scan once inside a whitespace run: the joined words, followed by
one space when whitespace follows the last word. -/
theorem replaceWsAux_true_aux (n : Nat) : ∀ t : JSString, t.length ≤ n →
    ∃ T : JSString, (T = [] ∨ (T = [' '] ∧ words t ≠ [])) ∧
      replaceWsAux true t = joinWords (words t) ++ T := by
  induction n with
  | zero =>
    intro t ht
    have : t = [] := List.length_eq_zero.1 (by omega)
    subst this
    exact ⟨[], Or.inl rfl, by simp [words_nil, joinWords_nil, replaceWsAux]⟩
  | succ n ih =>
    intro t ht
    cases t with
    | nil => exact ⟨[], Or.inl rfl, by simp [words_nil, joinWords_nil, replaceWsAux]⟩
    | cons c cs =>
      simp only [List.length_cons] at ht
      by_cases hc : isJsSpace c = true
      · rw [words_space cs hc, replaceWsAux_true_space cs hc]
        exact ih cs (by omega)
      · have hc2 : isJsSpace c = false := by simpa using hc
        have hsplit : cs = cs.takeWhile (fun d => !isJsSpace d) ++
            cs.dropWhile (fun d => !isJsSpace d) := (List.takeWhile_append_dropWhile _ cs).symm
        have hlen := (List.dropWhile_sublist (l := cs) fun d => !isJsSpace d).length_le
        have hstep : replaceWsAux true (c :: cs) =
            (c :: cs.takeWhile fun d => !isJsSpace d) ++
              replaceWsAux false (cs.dropWhile fun d => !isJsSpace d) := by
          rw [replaceWsAux_nonspace true cs hc2]
          conv_lhs => rw [hsplit]
          rw [replaceWsAux_word false _ _ (takeWhile_nonspace cs)]
          simp
        rw [words_nonspace cs hc2, hstep]
        rcases dropWhile_nonspace_cases cs with hr | ⟨d, r, hr, hd⟩
        · rw [hr]
          exact ⟨[], Or.inl rfl, by simp [words_nil, joinWords_singleton, replaceWsAux]⟩
        · rw [hr, replaceWsAux_false_space r hd, words_space r hd]
          have hrlen : r.length ≤ n := by
            have := congrArg List.length hr
            simp only [List.length_cons] at this
            omega
          obtain ⟨T, hT, hrec⟩ := ih r hrlen
          rw [hrec]
          cases hw : words r with
          | nil =>
            have hT2 : T = [] := by
              rcases hT with h | ⟨_, h⟩
              · exact h
              · exact absurd hw h
            subst hT2
            exact ⟨[' '], Or.inr ⟨rfl, by simp⟩, by simp [joinWords_singleton, joinWords_nil]⟩
          | cons x xs =>
            refine ⟨T, ?_, by simp [joinWords_cons_cons]⟩
            rcases hT with h | ⟨h, _⟩
            · exact Or.inl h
            · exact Or.inr ⟨h, by simp⟩

theorem replaceWsAux_true_eq (t : JSString) :
    ∃ T : JSString, (T = [] ∨ (T = [' '] ∧ words t ≠ [])) ∧
      replaceWsAux true t = joinWords (words t) ++ T :=
  replaceWsAux_true_aux t.length t le_rfl

theorem replaceWs_cases (t : JSString) :
    replaceWs t = replaceWsAux true t ∨ replaceWs t = ' ' :: replaceWsAux true t := by
  cases t with
  | nil => left; rfl
  | cons c cs =>
    by_cases hc : isJsSpace c = true
    · right; rw [replaceWs, replaceWsAux_false_space cs hc, replaceWsAux_true_space cs hc]
    · have hc2 : isJsSpace c = false := by simpa using hc
      left; rw [replaceWs, replaceWsAux_nonspace false cs hc2, replaceWsAux_nonspace true cs hc2]

/-- Joined words start and end with a character that is not whitespace. -/
theorem trimmed_joinWords : ∀ ws : List JSString, WordList ws → Trimmed (joinWords ws)
  | [], _ => by simp [joinWords_nil, Trimmed]
  | [w], h => by
    rw [joinWords_singleton]
    have hw := (h w (List.mem_singleton_self w)).2
    constructor
    · intro c hc
      exact hw c (List.mem_of_mem_head? hc)
    · intro c hc
      exact hw c (List.mem_of_mem_getLast? hc)
  | w :: x :: xs, h => by
    rw [joinWords_cons_cons]
    have hw := h w (List.mem_cons_self _ _)
    have ih := trimmed_joinWords (x :: xs) (wordList_tail h)
    have hne : joinWords (x :: xs) ≠ [] := by
      have hx := (h x (by simp)).1
      cases xs with
      | nil => rw [joinWords_singleton]; exact hx
      | cons y ys => rw [joinWords_cons_cons]; simp [hx]
    constructor
    · intro c hc
      cases w with
      | nil => exact absurd rfl hw.1
      | cons a w =>
        simp only [List.cons_append, List.head?_cons, Option.some.injEq] at hc
        subst hc
        exact hw.2 _ (List.mem_cons_self _ _)
    · intro c hc
      apply ih.2 c
      revert hc hne
      generalize joinWords (x :: xs) = j
      intro hne hc
      cases j with
      | nil => exact absurd rfl hne
      | cons y ys =>
        rw [List.getLast?_append_of_ne_nil _ (by simp)] at hc
        simpa [List.getLast?_cons_cons] using hc

theorem dropWhile_of_head {p : Char → Bool} (s : JSString)
    (h : ∀ c, s.head? = some c → p c = false) : s.dropWhile p = s := by
  cases s with
  | nil => rfl
  | cons a s => simp [List.dropWhile, h a rfl]

theorem rdropWhile_of_last {p : Char → Bool} (s : JSString)
    (h : ∀ c, s.getLast? = some c → p c = false) : s.rdropWhile p = s := by
  rw [List.rdropWhile_eq_self_iff]
  intro hl
  have := h _ (List.getLast?_eq_getLast s hl)
  simp [this]

/-- Normalising a text gives its words joined by single spaces. -/
theorem normalise_eq_joinWords (t : JSString) : normalise t = joinWords (words t) := by
  obtain ⟨T, hT, hrec⟩ := replaceWsAux_true_eq t
  have htr := trimmed_joinWords (words t) (wordList_words t)
  have hhead : ∀ c, (replaceWsAux true t).head? = some c → isJsSpace c = false := by
    intro c hc
    rw [hrec] at hc
    rcases hT with h | ⟨h, hne⟩
    · subst h
      rw [List.append_nil] at hc
      exact htr.1 c hc
    · cases hj : joinWords (words t) with
      | nil =>
        exfalso
        cases hw : words t with
        | nil => exact hne hw
        | cons w ws =>
          rw [hw] at hj
          have hwne := (wordList_words t w (by rw [hw]; exact List.mem_cons_self _ _)).1
          cases ws with
          | nil => rw [joinWords_singleton] at hj; exact hwne hj
          | cons y ys => rw [joinWords_cons_cons] at hj; simp [hwne] at hj
      | cons a j =>
        rw [hj] at hc htr
        simp only [List.cons_append, List.head?_cons, Option.some.injEq] at hc
        subst hc
        exact htr.1 a rfl
  have hstart : (replaceWs t).dropWhile isJsSpace = replaceWsAux true t := by
    rcases replaceWs_cases t with h | h
    · rw [h]; exact dropWhile_of_head _ hhead
    · rw [h]
      simp only [List.dropWhile, isJsSpace_space]
      exact dropWhile_of_head _ hhead
  rw [normalise, trim, hstart, hrec]
  rcases hT with h | ⟨h, _⟩
  · subst h
    rw [List.append_nil]
    exact rdropWhile_of_last _ htr.2
  · subst h
    rw [List.rdropWhile_concat_pos _ _ _ isJsSpace_space]
    exact rdropWhile_of_last _ htr.2

/-- Splitting joined words gives the words back. -/
theorem words_joinWords : ∀ ws : List JSString, WordList ws → words (joinWords ws) = ws
  | [], _ => by rw [joinWords_nil, words_nil]
  | [w], h => by
    rw [joinWords_singleton]
    have hw := h w (List.mem_singleton_self w)
    cases w with
    | nil => exact absurd rfl hw.1
    | cons a w =>
      have ha := hw.2 a (List.mem_cons_self _ _)
      have hall : ∀ d ∈ w, (fun d => !isJsSpace d) d = true := by
        intro d hd
        simp [hw.2 d (List.mem_cons_of_mem _ hd)]
      rw [words_nonspace w ha, List.takeWhile_eq_self_iff.2 hall, List.dropWhile_eq_nil_iff.2 hall,
        words_nil]
  | w :: x :: xs, h => by
    rw [joinWords_cons_cons]
    have hw := h w (List.mem_cons_self _ _)
    have ih := words_joinWords (x :: xs) (wordList_tail h)
    cases w with
    | nil => exact absurd rfl hw.1
    | cons a w =>
      have ha := hw.2 a (List.mem_cons_self _ _)
      have hall : ∀ d ∈ w, (fun d => !isJsSpace d) d = true := by
        intro d hd
        simp [hw.2 d (List.mem_cons_of_mem _ hd)]
      have htake : (w ++ ' ' :: joinWords (x :: xs)).takeWhile (fun d => !isJsSpace d) = w := by
        rw [List.takeWhile_append_of_pos hall]
        simp [List.takeWhile, isJsSpace_space]
      have hdrop : (w ++ ' ' :: joinWords (x :: xs)).dropWhile (fun d => !isJsSpace d) =
          ' ' :: joinWords (x :: xs) := by
        rw [List.dropWhile_append_of_pos hall]
        simp [List.dropWhile, isJsSpace_space]
      rw [List.cons_append, words_nonspace _ ha, htake, hdrop, words_space _ isJsSpace_space, ih]

theorem filter_replaceWsAux (b : Bool) (t : JSString) :
    (replaceWsAux b t).filter (fun c => !isJsSpace c) = t.filter (fun c => !isJsSpace c) := by
  induction t generalizing b with
  | nil => simp [replaceWsAux]
  | cons c cs ih =>
    by_cases hc : isJsSpace c = true
    · cases b
      · rw [replaceWsAux_false_space cs hc]
        simp [List.filter, hc, isJsSpace_space, ih]
      · rw [replaceWsAux_true_space cs hc]
        simp [List.filter, hc, ih]
    · have hc2 : isJsSpace c = false := by simpa using hc
      rw [replaceWsAux_nonspace b cs hc2]
      simp [List.filter, hc2, ih]

theorem filter_dropWhile_space (s : JSString) :
    (s.dropWhile isJsSpace).filter (fun c => !isJsSpace c) = s.filter (fun c => !isJsSpace c) := by
  induction s with
  | nil => rfl
  | cons c cs ih =>
    by_cases hc : isJsSpace c = true
    · simp [List.dropWhile, List.filter, hc, ih]
    · have hc2 : isJsSpace c = false := by simpa using hc
      simp [List.dropWhile, hc2]

theorem filter_rdropWhile_space (s : JSString) :
    (s.rdropWhile isJsSpace).filter (fun c => !isJsSpace c) = s.filter (fun c => !isJsSpace c) := by
  rw [List.rdropWhile, List.filter_reverse, filter_dropWhile_space, List.filter_reverse,
    List.reverse_reverse]

theorem filter_normalise (t : JSString) :
    (normalise t).filter (fun c => !isJsSpace c) = t.filter (fun c => !isJsSpace c) := by
  rw [normalise, trim, filter_rdropWhile_space, filter_dropWhile_space, replaceWs,
    filter_replaceWsAux]

/-- Joined words have no two consecutive whitespace characters. -/
theorem noDoubleSpace_joinWords : ∀ ws : List JSString, WordList ws → NoDoubleSpace (joinWords ws)
  | [], _ => by simp [joinWords_nil, NoDoubleSpace]
  | [w], h => by
    rw [joinWords_singleton]
    have hw := (h w (List.mem_singleton_self w)).2
    unfold NoDoubleSpace
    clear h
    induction w with
    | nil => exact List.chain'_nil
    | cons a w ih =>
      rw [List.chain'_cons']
      refine ⟨?_, ih fun c hc => hw c (List.mem_cons_of_mem _ hc)⟩
      intro y _ hy
      simp [hw a (List.mem_cons_self _ _)] at hy
  | w :: x :: xs, h => by
    rw [joinWords_cons_cons]
    have hw := (h w (List.mem_cons_self _ _)).2
    have ih := noDoubleSpace_joinWords (x :: xs) (wordList_tail h)
    have htr := trimmed_joinWords (x :: xs) (wordList_tail h)
    unfold NoDoubleSpace at ih ⊢
    have hsp : List.Chain' (fun a b => ¬(isJsSpace a = true ∧ isJsSpace b = true))
        (' ' :: joinWords (x :: xs)) := by
      rw [List.chain'_cons']
      refine ⟨?_, ih⟩
      intro y hy hboth
      have := htr.1 y hy
      simp [this] at hboth
    clear h
    induction w with
    | nil => simpa using hsp
    | cons a w ihw =>
      rw [List.cons_append, List.chain'_cons']
      refine ⟨?_, ihw fun c hc => hw c (List.mem_cons_of_mem _ hc)⟩
      intro y _ hy
      simp [hw a (List.mem_cons_self _ _)] at hy

/-! ## Decimal notation and `toFixed` -/

theorem decimalFuel_congr (fuel : Nat) :
    ∀ (fuel2 n : Nat), n < fuel → n < fuel2 → decimalFuel fuel n = decimalFuel fuel2 n := by
  induction fuel with
  | zero => intro fuel2 n h; omega
  | succ f ih =>
    intro fuel2 n h h2
    cases fuel2 with
    | zero => omega
    | succ f2 =>
      simp only [decimalFuel]
      by_cases hn : n < 10
      · simp [hn]
      · simp only [hn, if_false]
        rw [ih f2 (n / 10) (by omega) (by omega)]

theorem decimal_of_lt {n : Nat} (h : n < 10) : decimal n = [digitChar n] := by
  simp [decimal, decimalFuel, h]

theorem decimal_of_ge {n : Nat} (h : 10 ≤ n) :
    decimal n = decimal (n / 10) ++ [digitChar (n % 10)] := by
  have hn : ¬ n < 10 := by omega
  rw [decimal, decimalFuel]
  simp only [hn, if_false]
  rw [decimal, decimalFuel_congr n (n / 10 + 1) (n / 10) (by omega) (by omega)]

theorem decimal_length_pos (n : Nat) : 0 < (decimal n).length := by
  by_cases h : n < 10
  · simp [decimal_of_lt h]
  · rw [decimal_of_ge (by omega)]; simp

/-- Padding the digits of `n` to three places and putting the point before the last two
gives the notation of `n` hundredths. -/
theorem pad_split_eq_showHundredths (n : Nat) :
    (let m := decimal n
     let m := if m.length ≤ 2 then List.replicate (2 + 1 - m.length) '0' ++ m else m
     m.take (m.length - 2) ++ '.' :: m.drop (m.length - 2)) = showHundredths n := by
  have h0 : decimal 0 = ['0'] := by decide
  have hd0 : digitChar 0 = '0' := by decide
  by_cases h1 : n < 10
  · have e1 : n / 100 = 0 := by omega
    have e2 : n / 10 % 10 = 0 := by omega
    have e3 : n % 10 = n := by omega
    simp [decimal_of_lt h1, showHundredths, e1, e2, e3, h0, hd0, List.replicate]
  · by_cases h2 : n < 100
    · have e1 : n / 100 = 0 := by omega
      have e2 : n / 10 % 10 = n / 10 := by omega
      have hq : n / 10 < 10 := by omega
      simp [decimal_of_ge (show 10 ≤ n by omega), decimal_of_lt hq, showHundredths, e1, e2, h0,
        List.replicate]
    · have hq : 10 ≤ n / 10 := by omega
      have e1 : n / 10 / 10 = n / 100 := by omega
      have hpos := decimal_length_pos (n / 100)
      rw [decimal_of_ge (show 10 ≤ n by omega), decimal_of_ge hq, e1]
      have hlen : ¬ ((decimal (n / 100) ++ [digitChar (n / 10 % 10)] ++ [digitChar (n % 10)]).length
          ≤ 2) := by
        simp only [List.length_append, List.length_singleton]; omega
      simp only [hlen, if_false]
      have hk : (decimal (n / 100) ++ [digitChar (n / 10 % 10)] ++ [digitChar (n % 10)]).length - 2
          = (decimal (n / 100)).length := by simp
      rw [hk, List.append_assoc, List.take_left', List.drop_left']
      · simp [showHundredths]
      · rfl
      · rfl

theorem natAbs_cast_of_nonneg {z : ℤ} (hz : 0 ≤ z) : ((z.natAbs : ℕ) : ℚ) = (z : ℚ) := by
  rw [← Int.cast_natCast, Int.natAbs_of_nonneg hz]

theorem nearestScaled_eq_floor (x : ℚ) (hx : 0 ≤ x) :
    ((nearestScaled x.num.natAbs x.den 2 : Nat) : ℤ) = roundHundredths x := by
  have hnum : (0 : ℤ) ≤ x.num := Rat.num_nonneg.2 hx
  have hxe : x = (x.num.natAbs : ℚ) / (x.den : ℚ) := by
    have h1 : ((x.num.natAbs : ℕ) : ℚ) = (x.num : ℚ) := natAbs_cast_of_nonneg hnum
    rw [h1]
    exact (Rat.num_div_den x).symm
  have hdpos : 0 < x.den := x.den_pos
  generalize x.num.natAbs = a at hxe
  generalize x.den = d at hxe hdpos
  have hden : (0 : ℚ) < d := by exact_mod_cast hdpos
  rw [roundHundredths, eq_comm, Int.floor_eq_iff]
  have hle : nearestScaled a d 2 * (2 * d) ≤ 2 * a * 10 ^ 2 + d := Nat.div_mul_le_self _ _
  have hlt : 2 * a * 10 ^ 2 + d < (nearestScaled a d 2 + 1) * (2 * d) :=
    (Nat.div_lt_iff_lt_mul (show 0 < 2 * d by omega)).1 (Nat.lt_succ_self _)
  have hleq : ((nearestScaled a d 2 : ℕ) : ℚ) * (2 * d) ≤ 2 * a * 10 ^ 2 + d := by
    exact_mod_cast hle
  have hltq : (2 * a * 10 ^ 2 + d : ℚ) < ((nearestScaled a d 2 : ℕ) + 1) * (2 * d) := by
    exact_mod_cast hlt
  have key : x * 100 + 1 / 2 = (2 * a * 10 ^ 2 + d) / (2 * d) := by
    rw [hxe]; field_simp; ring
  rw [key]
  constructor
  · rw [le_div_iff₀ (by positivity)]
    exact_mod_cast hleq
  · rw [div_lt_iff₀ (by positivity)]
    exact_mod_cast hltq

/-- The rounded value lies within half a hundredth of the number. -/
theorem roundHundredths_near (x : ℚ) :
    |(roundHundredths x : ℚ) / 100 - x| ≤ 1 / 200 := by
  have h1 : ((roundHundredths x : ℤ) : ℚ) ≤ x * 100 + 1 / 2 := Int.floor_le _
  have h2 : x * 100 + 1 / 2 < (roundHundredths x : ℚ) + 1 := Int.lt_floor_add_one _
  rw [abs_le]
  constructor <;> linarith

theorem toFixed_two (nts : ℚ → JSString) (x : ℚ) (h0 : 0 ≤ x) (h1 : x < 10 ^ 21) :
    toFixed nts x 2 = showHundredths (roundHundredths x).toNat := by
  have hnum : (0 : ℤ) ≤ x.num := Rat.num_nonneg.2 h0
  have hneg : ¬ x.num < 0 := by omega
  have hsmall : ¬ 10 ^ 21 * x.den ≤ x.num.natAbs := by
    intro hle
    have hden : (0 : ℚ) < x.den := by exact_mod_cast x.den_pos
    have hq : ((10 : ℚ) ^ 21) * x.den ≤ (x.num.natAbs : ℚ) := by exact_mod_cast hle
    have h1' : ((x.num.natAbs : ℕ) : ℚ) = (x.num : ℚ) := natAbs_cast_of_nonneg hnum
    have hx : x = (x.num : ℚ) / x.den := (Rat.num_div_den x).symm
    rw [hx, div_lt_iff₀ hden] at h1
    rw [h1'] at hq
    linarith
  have hr : (roundHundredths x).toNat = nearestScaled x.num.natAbs x.den 2 := by
    rw [← nearestScaled_eq_floor x h0]; simp
  rw [hr, ← pad_split_eq_showHundredths]
  simp only [toFixed, hneg, hsmall, if_false]
  simp

/-! ## Runs -/

theorem Run.bind_eq {α β : Type} (m : Run α) (f : α → Run β) : m >>= f = Run.bind m f := rfl

theorem Run.pure_eq {α : Type} (a : α) : (pure a : Run α) = ⟨[], .ok a⟩ := rfl

theorem Run.bind_of_ok {α β : Type} {m : Run α} {a : α} (f : α → Run β)
    (h : m.result = .ok a) : m >>= f = ⟨m.trace ++ (f a).trace, (f a).result⟩ := by
  rw [Run.bind_eq, Run.bind]; simp [h]

theorem Run.bind_of_error {α β : Type} {m : Run α} {e : JSError} (f : α → Run β)
    (h : m.result = .error e) : m >>= f = ⟨m.trace, .error e⟩ := by
  rw [Run.bind_eq, Run.bind]; simp [h]

/-! ## `fetchPageContent` -/

theorem fetchPageContentTry_ok {env : Env} {i : Nat} {url : JSString} {r : Response}
    {html : JSString} {tc : Option JSString} (h1 : env.fetch i url = .ok r)
    (h2 : r.text = .ok html) (h3 : env.bodyTextContent html = .ok tc) :
    fetchPageContentTry env i url = ⟨[.httpGet url], .ok (normalise (tc.getD []))⟩ := by
  simp [fetchPageContentTry, Run.bind_eq, Run.bind, Run.pure_eq, request, lift, h1, h2, h3]

theorem fetchPageContentTry_raises {env : Env} {i : Nat} {url : JSString} {e : JSError}
    (h : FetchRaises env i url e) :
    fetchPageContentTry env i url = ⟨[.httpGet url], .error e⟩ := by
  rcases h with h1 | ⟨r, h1, h2⟩ | ⟨r, html, h1, h2, h3⟩
  · simp [fetchPageContentTry, Run.bind_eq, Run.bind, request, h1]
  · simp [fetchPageContentTry, Run.bind_eq, Run.bind, request, lift, h1, h2]
  · simp [fetchPageContentTry, Run.bind_eq, Run.bind, request, lift, h1, h2, h3]

/-- Every fetch either delivers some body text or raises. -/
theorem fetch_cases (env : Env) (i : Nat) (url : JSString) :
    (∃ r html tc, env.fetch i url = .ok r ∧ r.text = .ok html ∧
      env.bodyTextContent html = .ok tc) ∨ ∃ e, FetchRaises env i url e := by
  cases h1 : env.fetch i url with
  | error e => exact Or.inr ⟨e, Or.inl h1⟩
  | ok r =>
    cases h2 : r.text with
    | error e => exact Or.inr ⟨e, Or.inr (Or.inl ⟨r, h1, h2⟩)⟩
    | ok html =>
      cases h3 : env.bodyTextContent html with
      | error e => exact Or.inr ⟨e, Or.inr (Or.inr ⟨r, html, h1, h2, h3⟩)⟩
      | ok tc => exact Or.inl ⟨r, html, tc, rfl, h2, h3⟩

theorem fetchPageContent_ok {env : Env} {i : Nat} {url : JSString} {r : Response}
    {html : JSString} {tc : Option JSString} (h1 : env.fetch i url = .ok r)
    (h2 : r.text = .ok html) (h3 : env.bodyTextContent html = .ok tc) :
    fetchPageContent env i url = ⟨[.httpGet url], .ok (normalise (tc.getD []))⟩ := by
  rw [fetchPageContent, fetchPageContentTry_ok h1 h2 h3]; rfl

theorem fetchPageContent_raises {env : Env} {i : Nat} {url : JSString} {e : JSError}
    (h : FetchRaises env i url e) :
    fetchPageContent env i url =
      ⟨[.httpGet url, .consoleError (fetchFailureMessage url) e], .ok []⟩ := by
  rw [fetchPageContent, fetchPageContentTry_raises h]; rfl

theorem fetchPageContent_result (env : Env) (i : Nat) (url : JSString) :
    (fetchPageContent env i url).result = .ok (extractedText env i url) := by
  rcases fetch_cases env i url with ⟨r, html, tc, h1, h2, h3⟩ | ⟨e, h⟩
  · simp [extractedText, fetchPageContent_ok h1 h2 h3]
  · simp [extractedText, fetchPageContent_raises h]

theorem extractedText_cases (env : Env) (i : Nat) (url : JSString) :
    extractedText env i url = [] ∨ ∃ t, extractedText env i url = normalise t := by
  rcases fetch_cases env i url with ⟨r, html, tc, h1, h2, h3⟩ | ⟨e, h⟩
  · right; exact ⟨tc.getD [], by simp [extractedText, fetchPageContent_ok h1 h2 h3]⟩
  · left; simp [extractedText, fetchPageContent_raises h]

theorem fetchPageContent_noWrite (env : Env) (i : Nat) (url : JSString) :
    ∀ ev ∈ (fetchPageContent env i url).trace, ev.isStoreWrite = false := by
  rcases fetch_cases env i url with ⟨r, html, tc, h1, h2, h3⟩ | ⟨e, h⟩
  · simp [fetchPageContent_ok h1 h2 h3, Event.isStoreWrite]
  · simp [fetchPageContent_raises h, Event.isStoreWrite]

/-! ## Store writes of a trace -/

theorem writesOf_append (a b : List Event) : writesOf (a ++ b) = writesOf a ++ writesOf b := by
  induction a with
  | nil => rfl
  | cons ev a ih => cases ev <;> simp [writesOf, ih]

theorem writesOf_of_noWrite (a : List Event) (h : ∀ ev ∈ a, ev.isStoreWrite = false) :
    writesOf a = [] := by
  induction a with
  | nil => rfl
  | cons ev a ih =>
    have h1 := h ev (List.mem_cons_self _ _)
    have h2 := ih fun x hx => h x (List.mem_cons_of_mem _ hx)
    cases ev <;> simp_all [writesOf, Event.isStoreWrite]

theorem mem_writesOf {a : List Event} {cls url content : JSString}
    (h : Event.dataCreate cls url content ∈ a) : (url, content) ∈ writesOf a := by
  induction a with
  | nil => simp at h
  | cons ev a ih =>
    rcases List.mem_cons.1 h with rfl | h2
    · simp [writesOf]
    · have := ih h2
      cases ev <;> simp [writesOf, this]

/-! ## The ingestion loop -/

theorem ingestPage_skip {env : Env} {i : Nat} {page : Page}
    (h : extractedText env i page.url = []) :
    ingestPage env i page = ⟨(fetchPageContent env i page.url).trace, .ok ()⟩ := by
  rw [ingestPage, Run.bind_of_ok _ (fetchPageContent_result env i page.url)]
  simp [h, Run.pure_eq]

theorem ingestPage_write {env : Env} {i : Nat} {page : Page}
    (h : extractedText env i page.url ≠ []) :
    ingestPage env i page =
      ⟨(fetchPageContent env i page.url).trace ++
        [.dataCreate "DocumentationPage".toList page.url (extractedText env i page.url)],
        env.dataCreate i page.url (extractedText env i page.url)⟩ := by
  rw [ingestPage, Run.bind_of_ok _ (fetchPageContent_result env i page.url)]
  simp [h, request]

theorem writesOf_ingestPage (env : Env) (i : Nat) (page : Page) :
    writesOf (ingestPage env i page).trace =
      if extractedText env i page.url = [] then []
      else [(page.url, extractedText env i page.url)] := by
  have hf := writesOf_of_noWrite _ (fetchPageContent_noWrite env i page.url)
  by_cases h : extractedText env i page.url = []
  · simp [ingestPage_skip h, h, hf]
  · simp [ingestPage_write h, h, hf, writesOf_append, writesOf]

theorem ingestFrom_nil (env : Env) (i : Nat) : ingestFrom env i [] = ⟨[], .ok ()⟩ := rfl

theorem ingestFrom_cons_ok {env : Env} {i : Nat} {page : Page} (rest : List Page)
    (h : (ingestPage env i page).result = .ok ()) :
    ingestFrom env i (page :: rest) =
      ⟨(ingestPage env i page).trace ++ (ingestFrom env (i + 1) rest).trace,
        (ingestFrom env (i + 1) rest).result⟩ := by
  rw [ingestFrom, Run.bind_of_ok _ h]

theorem ingestFrom_cons_error {env : Env} {i : Nat} {page : Page} {e : JSError}
    (rest : List Page) (h : (ingestPage env i page).result = .error e) :
    ingestFrom env i (page :: rest) = ⟨(ingestPage env i page).trace, .error e⟩ := by
  rw [ingestFrom, Run.bind_of_error _ h]

theorem expectedWrites_cons (env : Env) (i : Nat) (page : Page) (rest : List Page) :
    expectedWrites env i (page :: rest) =
      writesOf (ingestPage env i page).trace ++ expectedWrites env (i + 1) rest := by
  rw [writesOf_ingestPage, expectedWrites]
  by_cases h : extractedText env i page.url = [] <;> simp [h]

/-- The writes of the loop are an initial part of the expected ones, and all of them when
the loop completes. -/
theorem writesOf_ingestFrom (env : Env) (pages : List Page) : ∀ i : Nat,
    writesOf (ingestFrom env i pages).trace <+: expectedWrites env i pages ∧
    ((ingestFrom env i pages).result = .ok () →
      writesOf (ingestFrom env i pages).trace = expectedWrites env i pages) := by
  induction pages with
  | nil => intro i; simp [ingestFrom_nil, writesOf, expectedWrites]
  | cons page rest ih =>
    intro i
    rw [expectedWrites_cons]
    cases h : (ingestPage env i page).result with
    | error e =>
      rw [ingestFrom_cons_error rest h]
      exact ⟨List.prefix_append _ _, fun hh => by simp at hh⟩
    | ok u =>
      rw [ingestFrom_cons_ok rest h, writesOf_append]
      obtain ⟨ih1, ih2⟩ := ih (i + 1)
      refine ⟨(List.prefix_append_right_inj _).2 ih1, fun hh => ?_⟩
      rw [ih2 hh]

/-- The loop completes when the store accepts every write. -/
theorem ingestFrom_ok (env : Env) (hstore : ∀ i url content, env.dataCreate i url content = .ok ())
    (pages : List Page) : ∀ i : Nat, (ingestFrom env i pages).result = .ok () := by
  induction pages with
  | nil => intro i; rfl
  | cons page rest ih =>
    intro i
    have h : (ingestPage env i page).result = .ok () := by
      by_cases ht : extractedText env i page.url = []
      · rw [ingestPage_skip ht]
      · rw [ingestPage_write ht]; exact hstore _ _ _
    rw [ingestFrom_cons_ok rest h]
    exact ih (i + 1)

theorem mem_expectedWrites (env : Env) (pages : List Page) : ∀ (i k : Nat) (page : Page),
    pages[k]? = some page → extractedText env (i + k) page.url ≠ [] →
    (page.url, extractedText env (i + k) page.url) ∈ expectedWrites env i pages := by
  induction pages with
  | nil => intro i k page h; simp at h
  | cons p rest ih =>
    intro i k page h ht
    cases k with
    | zero =>
      simp only [List.getElem?_cons_zero, Option.some.injEq] at h
      subst h
      simp only [Nat.add_zero] at ht ⊢
      simp [expectedWrites, ht]
    | succ k =>
      simp only [List.getElem?_cons_succ] at h
      have := ih (i + 1) k page h (by rwa [show i + 1 + k = i + (k + 1) by omega])
      rw [show i + 1 + k = i + (k + 1) by omega] at this
      rw [expectedWrites]
      split
      · exact this
      · exact List.mem_cons_of_mem _ this

theorem content_ne_nil_of_mem_expectedWrites (env : Env) (pages : List Page) :
    ∀ (i : Nat) (w : JSString × JSString), w ∈ expectedWrites env i pages → w.2 ≠ [] := by
  induction pages with
  | nil => intro i w h; simp [expectedWrites] at h
  | cons p rest ih =>
    intro i w h
    rw [expectedWrites] at h
    split at h
    · exact ih _ w h
    · rename_i hne
      rcases List.mem_cons.1 h with rfl | h
      · exact hne
      · exact ih _ w h

theorem addDocumentationPages_of_ok {env : Env} {pages : List Page}
    (h : (ingestFrom env 0 pages).result = .ok ()) :
    addDocumentationPages env pages =
      ⟨(ingestFrom env 0 pages).trace ++
        [.consoleLog ["✅ Documentation pages added successfully!".toList]], .ok ()⟩ := by
  rw [addDocumentationPages, Run.bind_of_ok _ h]; rfl

theorem addDocumentationPages_of_error {env : Env} {pages : List Page} {e : JSError}
    (h : (ingestFrom env 0 pages).result = .error e) :
    addDocumentationPages env pages = ⟨(ingestFrom env 0 pages).trace, .error e⟩ := by
  rw [addDocumentationPages, Run.bind_of_error _ h]

theorem writesOf_addDocumentationPages (env : Env) (pages : List Page) :
    writesOf (addDocumentationPages env pages).trace = writesOf (ingestFrom env 0 pages).trace := by
  cases h : (ingestFrom env 0 pages).result with
  | error e => rw [addDocumentationPages_of_error h]
  | ok u => rw [addDocumentationPages_of_ok h, writesOf_append]; simp [writesOf]

/-! ## The query report -/

theorem reportMatches_result (env : Env) (pages : List QueryMatch) :
    ∀ i : Nat, (reportMatches env i pages).result = .ok () := by
  induction pages with
  | nil => intro i; rfl
  | cons m rest ih =>
    intro i
    rw [reportMatches, Run.bind_of_ok (a := ()) _ rfl]
    exact ih (i + 1)

theorem reportMatches_cons (env : Env) (i : Nat) (m : QueryMatch) (rest : List QueryMatch) :
    (reportMatches env i (m :: rest)).trace =
      .consoleLog [matchLine env i m] :: (reportMatches env (i + 1) rest).trace := by
  rw [reportMatches, Run.bind_of_ok (a := ()) _ rfl]; rfl

theorem reportMatches_length (env : Env) (pages : List QueryMatch) :
    ∀ i : Nat, (reportMatches env i pages).trace.length = pages.length := by
  induction pages with
  | nil => intro i; rfl
  | cons m rest ih => intro i; rw [reportMatches_cons]; simp [ih (i + 1)]

theorem reportMatches_getElem? (env : Env) (pages : List QueryMatch) :
    ∀ (i k : Nat) (m : QueryMatch), pages[k]? = some m →
      (reportMatches env i pages).trace[k]? = some (.consoleLog [matchLine env (i + k) m]) := by
  induction pages with
  | nil => intro i k m h; simp at h
  | cons p rest ih =>
    intro i k m h
    rw [reportMatches_cons]
    cases k with
    | zero =>
      simp only [List.getElem?_cons_zero, Option.some.injEq] at h
      subst h; simp
    | succ k =>
      simp only [List.getElem?_cons_succ] at h ⊢
      rw [ih (i + 1) k m h, show i + 1 + k = i + (k + 1) by omega]

theorem findRelevantDocumentation_nil {env : Env} {userPrompt : JSString}
    (h : env.nearText [userPrompt] minimumCertainty = .ok []) :
    findRelevantDocumentation env userPrompt =
      ⟨[nearTextEvent userPrompt,
        .consoleLog ["🔍 Searching for relevant documentation based on prompt:".toList, userPrompt],
        .consoleLog ["❗ No relevant documentation found for:".toList, userPrompt]], .ok ()⟩ := by
  rw [findRelevantDocumentation, Run.bind_of_ok (a := []) _ h,
    Run.bind_of_ok (a := ()) _ rfl, if_pos List.length_nil]
  rfl

theorem findRelevantDocumentation_cons {env : Env} {userPrompt : JSString}
    {pages : List QueryMatch} (h : env.nearText [userPrompt] minimumCertainty = .ok pages)
    (hne : pages ≠ []) :
    findRelevantDocumentation env userPrompt =
      ⟨[nearTextEvent userPrompt,
        .consoleLog ["🔍 Searching for relevant documentation based on prompt:".toList, userPrompt],
        .consoleLog ["✅ Found ".toList ++ decimal pages.length ++
          " relevant documentation link(s) for prompt: \"".toList ++ userPrompt ++ "\"".toList]]
        ++ (reportMatches env 0 pages).trace, .ok ()⟩ := by
  have hlen : pages.length ≠ 0 := by
    intro h0; exact hne (List.length_eq_zero.1 h0)
  rw [findRelevantDocumentation, Run.bind_of_ok (a := pages) _ h,
    Run.bind_of_ok (a := ()) _ rfl, if_neg hlen, Run.bind_of_ok (a := ()) _ rfl,
    reportMatches_result]
  simp only [request, emit, List.append_assoc, List.singleton_append, List.cons_append,
    List.nil_append]

/-! ## `main` and the top level -/

theorem createSchema_quiet (env : Env) :
    ∀ ev ∈ (createSchema env).trace, ev.isStoreWrite = false ∧ ev.isQuery = false := by
  cases h1 : env.deleteAll <;> cases h2 : env.classCreate documentationPageSchema <;>
    simp [createSchema, Run.bind_eq, Run.bind, request, emit, h1, h2, Event.isStoreWrite,
      Event.isQuery]

theorem main_of_createSchema_error {env : Env} {e : JSError}
    (h : (createSchema env).result = .error e) :
    main env = ⟨(createSchema env).trace, .error e⟩ := by
  rw [main, Run.bind_of_error _ h]

theorem topLevel_of_error {env : Env} {e : JSError} (h : (main env).result = .error e) :
    topLevel env =
      ⟨(main env).trace ++ [.consoleError "❌ Error in main execution:".toList e], .ok ()⟩ := by
  rw [topLevel, Run.tryCatch]
  simp only [h, emit]

theorem addDocumentationPages_result (env : Env) (pages : List Page) :
    (addDocumentationPages env pages).result = (ingestFrom env 0 pages).result := by
  cases h : (ingestFrom env 0 pages).result with
  | error e => rw [addDocumentationPages_of_error h]
  | ok u => rw [addDocumentationPages_of_ok h]

theorem pair_sublist_expectedWrites (env : Env) (pages : List Page) :
    ∀ (i j k : Nat) (pj pk : Page), j < k → pages[j]? = some pj → pages[k]? = some pk →
      extractedText env (i + j) pj.url ≠ [] → extractedText env (i + k) pk.url ≠ [] →
      List.Sublist
        [(pj.url, extractedText env (i + j) pj.url), (pk.url, extractedText env (i + k) pk.url)]
        (expectedWrites env i pages) := by
  induction pages with
  | nil => intro i j k pj pk _ h; simp at h
  | cons p rest ih =>
    intro i j k pj pk hjk hj hk htj htk
    cases k with
    | zero => omega
    | succ k =>
      simp only [List.getElem?_cons_succ] at hk
      have e1 : i + (k + 1) = i + 1 + k := by omega
      cases j with
      | zero =>
        simp only [List.getElem?_cons_zero, Option.some.injEq] at hj
        subst hj
        simp only [Nat.add_zero] at htj ⊢
        rw [expectedWrites, if_neg htj]
        apply List.Sublist.cons₂
        rw [List.singleton_sublist, e1]
        exact mem_expectedWrites env rest (i + 1) k pk hk (by rwa [← e1])
      | succ j =>
        simp only [List.getElem?_cons_succ] at hj
        have e2 : i + (j + 1) = i + 1 + j := by omega
        have := ih (i + 1) j k pj pk (by omega) hj hk (by rwa [← e2]) (by rwa [← e1])
        rw [e1, e2, expectedWrites]
        split
        · exact this
        · exact List.Sublist.cons _ this

/-- The loop completes when none of the writes it requests raises. -/
theorem ingestFrom_ok_of_writes (env : Env) (pages : List Page) : ∀ i : Nat,
    (∀ (k : Nat) (page : Page), pages[k]? = some page → extractedText env (i + k) page.url ≠ [] →
      env.dataCreate (i + k) page.url (extractedText env (i + k) page.url) = .ok ()) →
    (ingestFrom env i pages).result = .ok () := by
  induction pages with
  | nil => intro i _; rfl
  | cons p rest ih =>
    intro i hw
    have h : (ingestPage env i p).result = .ok () := by
      by_cases ht : extractedText env i p.url = []
      · rw [ingestPage_skip ht]
      · rw [ingestPage_write ht]; exact hw 0 p (List.getElem?_cons_zero ..) ht
    rw [ingestFrom_cons_ok rest h]
    apply ih (i + 1)
    intro k page hk ht
    have e : i + 1 + k = i + (k + 1) := by omega
    rw [e] at ht ⊢
    exact hw (k + 1) page (by simpa using hk) ht

/-- The loop ends at the first write that raises: the run is that of the pages up to that
one, it is rejected with the error of the write, and the write is its last effect. -/
theorem ingestFrom_raise (env : Env) (pages : List Page) :
    ∀ (i k : Nat) (page : Page) (e : JSError), pages[k]? = some page →
      extractedText env (i + k) page.url ≠ [] →
      env.dataCreate (i + k) page.url (extractedText env (i + k) page.url) = .error e →
      (∀ (j : Nat) (p : Page), j < k → pages[j]? = some p → extractedText env (i + j) p.url ≠ [] →
        env.dataCreate (i + j) p.url (extractedText env (i + j) p.url) = .ok ()) →
      (ingestFrom env i pages).result = .error e ∧
      (ingestFrom env i pages).trace = (ingestFrom env i (pages.take (k + 1))).trace ∧
      (ingestFrom env i pages).trace.getLast? =
        some (.dataCreate "DocumentationPage".toList page.url
          (extractedText env (i + k) page.url)) ∧
      writesOf (ingestFrom env i pages).trace = expectedWrites env i (pages.take (k + 1)) := by
  induction pages with
  | nil => intro i k page e h; simp at h
  | cons p rest ih =>
    intro i k page e hk ht hraise hbefore
    cases k with
    | zero =>
      simp only [List.getElem?_cons_zero, Option.some.injEq] at hk
      subst hk
      simp only [Nat.add_zero] at ht hraise ⊢
      have hres : (ingestPage env i p).result = .error e := by
        rw [ingestPage_write ht]; exact hraise
      have htake : (p :: rest).take (0 + 1) = [p] := by simp
      rw [htake, ingestFrom_cons_error rest hres, ingestFrom_cons_error [] hres]
      refine ⟨rfl, rfl, ?_, ?_⟩
      · rw [ingestPage_write ht]; simp
      · rw [expectedWrites_cons, expectedWrites]; simp
    | succ k =>
      simp only [List.getElem?_cons_succ] at hk
      have e1 : i + (k + 1) = i + 1 + k := by omega
      rw [e1] at ht hraise ⊢
      have hres : (ingestPage env i p).result = .ok () := by
        by_cases htp : extractedText env i p.url = []
        · rw [ingestPage_skip htp]
        · rw [ingestPage_write htp]
          exact hbefore 0 p (by omega) (List.getElem?_cons_zero ..) htp
      have hb2 : ∀ (j : Nat) (q : Page), j < k → rest[j]? = some q →
          extractedText env (i + 1 + j) q.url ≠ [] →
          env.dataCreate (i + 1 + j) q.url (extractedText env (i + 1 + j) q.url) = .ok () := by
        intro j q hj hq htq
        have e2 : i + 1 + j = i + (j + 1) := by omega
        rw [e2] at htq ⊢
        exact hbefore (j + 1) q (by omega) (by simpa using hq) htq
      obtain ⟨r1, r2, r3, r4⟩ := ih (i + 1) k page e hk ht hraise hb2
      have htake : (p :: rest).take (k + 1 + 1) = p :: rest.take (k + 1) := by simp
      rw [htake, ingestFrom_cons_ok rest hres, ingestFrom_cons_ok (rest.take (k + 1)) hres]
      refine ⟨r1, by rw [r2], ?_, ?_⟩
      · have hne : (ingestFrom env (i + 1) rest).trace ≠ [] := by
          intro h0; rw [h0] at r3; simp at r3
        show ((ingestPage env i p).trace ++ (ingestFrom env (i + 1) rest).trace).getLast? = _
        rw [List.getLast?_append_of_ne_nil _ hne]
        exact r3
      · show writesOf ((ingestPage env i p).trace ++ (ingestFrom env (i + 1) rest).trace) = _
        rw [writesOf_append, r4, expectedWrites_cons]

/-! ## The claims -/

/-- C1: the text produced by the normalisation step of `fetchPageContent` has no two
consecutive whitespace characters and no leading or trailing whitespace character, for
every body text, and so has the text `fetchPageContent` returns for every outcome of the
fetch. -/
theorem normalised_text_is_well_spaced :
    (∀ t : JSString, NoDoubleSpace (normalise t) ∧ Trimmed (normalise t)) ∧
    ∀ (env : Env) (i : Nat) (url : JSString), ∃ text,
      (fetchPageContent env i url).result = .ok text ∧ NoDoubleSpace text ∧ Trimmed text := by
  have hnorm : ∀ t : JSString, NoDoubleSpace (normalise t) ∧ Trimmed (normalise t) := by
    intro t
    rw [normalise_eq_joinWords]
    exact ⟨noDoubleSpace_joinWords _ (wordList_words t), trimmed_joinWords _ (wordList_words t)⟩
  refine ⟨hnorm, fun env i url => ⟨extractedText env i url, fetchPageContent_result env i url, ?_⟩⟩
  rcases extractedText_cases env i url with h | ⟨t, h⟩
  · rw [h]; exact ⟨List.chain'_nil, by simp [Trimmed]⟩
  · rw [h]; exact hnorm t

/-- C2: every record `addDocumentationPages` writes has non-empty content, whatever the
pages and the outcomes of the fetches and of the writes; the iteration of a page whose
text is empty issues no store write, and the writes of a run are among those of the pages
with non-empty text. -/
theorem written_records_have_content (env : Env) (pages : List Page) :
    (∀ cls url content, Event.dataCreate cls url content ∈ (addDocumentationPages env pages).trace →
      content ≠ []) ∧
    (∀ (i : Nat) (page : Page), extractedText env i page.url = [] →
      ∀ ev ∈ (ingestPage env i page).trace, ev.isStoreWrite = false) ∧
    writesOf (addDocumentationPages env pages).trace <+: expectedWrites env 0 pages := by
  have hpre : writesOf (addDocumentationPages env pages).trace <+: expectedWrites env 0 pages := by
    rw [writesOf_addDocumentationPages]
    exact (writesOf_ingestFrom env pages 0).1
  refine ⟨?_, ?_, hpre⟩
  · intro cls url content h
    exact content_ne_nil_of_mem_expectedWrites env pages 0 (url, content)
      (hpre.subset (mem_writesOf h))
  · intro i page h ev hev
    rw [ingestPage_skip h] at hev
    exact fetchPageContent_noWrite env i page.url ev hev

/-- C2, at a page whose body holds whitespace only: its iteration writes nothing. -/
theorem written_records_have_content_witness :
    extractedText blankPageEnv 0 "https://api-docs.deepseek.com/".toList = [] ∧
    ∀ ev ∈ (ingestPage blankPageEnv 0 ⟨"https://api-docs.deepseek.com/".toList⟩).trace,
      ev.isStoreWrite = false :=
  ⟨by decide, (written_records_have_content blankPageEnv docs).2.1 0
    ⟨"https://api-docs.deepseek.com/".toList⟩ (by decide)⟩

/-- C3: when the fetch of a URL, the read of its body or the parse of its HTML raises,
`fetchPageContent` logs the failure with a message containing the URL and returns the empty
string without raising; the loop of `addDocumentationPages` then goes on with the next page
exactly as it would have, so that, when the store accepts the writes, the run completes,
reports success and writes every later page that has text. -/
theorem fetch_failure_is_isolated (env : Env) (i : Nat) (url : JSString) (e : JSError)
    (h : FetchRaises env i url e) :
    fetchPageContent env i url =
      ⟨[.httpGet url, .consoleError (fetchFailureMessage url) e], .ok []⟩ ∧
    url <:+: fetchFailureMessage url ∧
    (∀ rest : List Page, ingestFrom env i (⟨url⟩ :: rest) =
      ⟨[.httpGet url, .consoleError (fetchFailureMessage url) e] ++
        (ingestFrom env (i + 1) rest).trace, (ingestFrom env (i + 1) rest).result⟩) ∧
    ∀ pages : List Page, pages[i]? = some ⟨url⟩ →
      (∀ j u c, env.dataCreate j u c = .ok ()) →
      (addDocumentationPages env pages).result = .ok () ∧
      Event.consoleLog ["✅ Documentation pages added successfully!".toList] ∈
        (addDocumentationPages env pages).trace ∧
      ∀ (k : Nat) (page : Page), i < k → pages[k]? = some page →
        extractedText env k page.url ≠ [] →
        (page.url, extractedText env k page.url) ∈
          writesOf (addDocumentationPages env pages).trace := by
  have hfetch := fetchPageContent_raises h
  have htext : extractedText env i url = [] := by simp [extractedText, hfetch]
  refine ⟨hfetch, ⟨"❌ Failed to fetch content from ".toList, ":".toList, rfl⟩, ?_, ?_⟩
  · intro rest
    have hskip : ingestPage env i ⟨url⟩ = ⟨(fetchPageContent env i url).trace, .ok ()⟩ :=
      ingestPage_skip htext
    rw [ingestFrom_cons_ok rest (by rw [hskip]), hskip, hfetch]
  · intro pages _ hstore
    have hok := ingestFrom_ok env hstore pages 0
    refine ⟨by rw [addDocumentationPages_result]; exact hok, ?_, ?_⟩
    · rw [addDocumentationPages_of_ok hok]; simp
    · intro k page _ hk ht
      rw [writesOf_addDocumentationPages, (writesOf_ingestFrom env pages 0).2 hok]
      have := mem_expectedWrites env pages 0 k page hk (by rwa [Nat.zero_add])
      rwa [Nat.zero_add] at this

/-- C3, at the five seed URLs with the third unreachable: the failure is logged, four
records are written and the success message is reported. -/
theorem fetch_failure_is_isolated_witness :
    FetchRaises oneUnreachableEnv 2 "https://api-docs.deepseek.com/".toList "ECONNREFUSED" ∧
    (fetchPageContent oneUnreachableEnv 2 "https://api-docs.deepseek.com/".toList).result
      = .ok [] ∧
    (addDocumentationPages oneUnreachableEnv docs).result = .ok () ∧
    Event.consoleLog ["✅ Documentation pages added successfully!".toList] ∈
      (addDocumentationPages oneUnreachableEnv docs).trace ∧
    (writesOf (addDocumentationPages oneUnreachableEnv docs).trace).length = 4 :=
  have h := fetch_failure_is_isolated oneUnreachableEnv 2 "https://api-docs.deepseek.com/".toList
    "ECONNREFUSED" (Or.inl rfl)
  have hrun := h.2.2.2 docs rfl (fun _ _ _ => rfl)
  ⟨Or.inl rfl, by rw [h.1], hrun.1, hrun.2.1, by decide⟩

/-- C4, refuted as stated: a response with status 404 and an HTML body is not turned into
the empty string; its text is returned and the record is written. -/
theorem non_success_response_is_ingested :
    (∃ r, notFoundEnv.fetch 0 "https://api-docs.deepseek.com/missing".toList = .ok r ∧
      r.status = 404) ∧
    ¬ ((fetchPageContent notFoundEnv 0 "https://api-docs.deepseek.com/missing".toList).result
      = .ok []) ∧
    ("https://api-docs.deepseek.com/missing".toList, "Not Found".toList) ∈
      writesOf (addDocumentationPages notFoundEnv
        [⟨"https://api-docs.deepseek.com/missing".toList⟩]).trace := by
  refine ⟨⟨_, rfl, rfl⟩, ?_, by decide⟩
  rw [fetchPageContent_result]
  intro hh
  have : extractedText notFoundEnv 0 "https://api-docs.deepseek.com/missing".toList = [] := by
    injection hh
  revert this
  decide

/-- C4, amended: when the HTTP collaborator delivers a response, whatever its status,
`fetchPageContent` returns the normalised body text of that response; the result is the
empty string exactly when that text is empty, and the page is written exactly when it is
not. -/
theorem response_status_is_ignored (env : Env) (i : Nat) (url : JSString) (r : Response)
    (html : JSString) (tc : Option JSString) (h1 : env.fetch i url = .ok r)
    (h2 : r.text = .ok html) (h3 : env.bodyTextContent html = .ok tc) :
    fetchPageContent env i url = ⟨[.httpGet url], .ok (normalise (tc.getD []))⟩ ∧
    ((fetchPageContent env i url).result = .ok [] ↔ normalise (tc.getD []) = []) ∧
    writesOf (ingestPage env i ⟨url⟩).trace =
      if normalise (tc.getD []) = [] then [] else [(url, normalise (tc.getD []))] := by
  have hfetch := fetchPageContent_ok h1 h2 h3
  have htext : extractedText env i url = normalise (tc.getD []) := by
    simp [extractedText, hfetch]
  refine ⟨hfetch, ?_, ?_⟩
  · rw [hfetch]
    constructor
    · intro hh; injection hh
    · intro hh; rw [hh]
  · rw [writesOf_ingestPage, htext]

/-- C4 amended, at a response with status 404: the text of the error page is returned. -/
theorem response_status_is_ignored_witness :
    fetchPageContent notFoundEnv 0 "https://api-docs.deepseek.com/missing".toList =
      ⟨[.httpGet "https://api-docs.deepseek.com/missing".toList],
        .ok (normalise "Not Found".toList)⟩ :=
  (response_status_is_ignored notFoundEnv 0 "https://api-docs.deepseek.com/missing".toList
    ⟨404, .ok "<html><body>Not Found</body></html>".toList⟩
    "<html><body>Not Found</body></html>".toList (some "Not Found".toList) rfl rfl rfl).1

/-- C5: the service sends the minimum certainty `0.7` to the store and reports exactly the
matches of the result list the store returns, in order, after the search message and the
count or "not found" message; with a store that applies the minimum certainty it is sent,
every line the service reports is that of a match with certainty at least `0.7`. -/
theorem reported_matches_meet_store_threshold (env : Env) (userPrompt : JSString)
    (pages : List QueryMatch) (hq : env.nearText [userPrompt] minimumCertainty = .ok pages) :
    (findRelevantDocumentation env userPrompt).trace =
      [.nearTextQuery "DocumentationPage".toList
          "url content _additional \x7bcertainty\x7d".toList [userPrompt] (7 / 10),
        .consoleLog ["🔍 Searching for relevant documentation based on prompt:".toList, userPrompt],
        if pages = [] then
          .consoleLog ["❗ No relevant documentation found for:".toList, userPrompt]
        else
          .consoleLog ["✅ Found ".toList ++ decimal pages.length ++
            " relevant documentation link(s) for prompt: \"".toList ++ userPrompt ++ "\"".toList]]
        ++ (reportMatches env 0 pages).trace ∧
    (reportMatches env 0 pages).trace.length = pages.length ∧
    (∀ (k : Nat) (m : QueryMatch), pages[k]? = some m →
      (reportMatches env 0 pages).trace[k]? = some (.consoleLog [matchLine env k m])) ∧
    (HonoursCertainty env →
      ∀ (k : Nat) (ev : Event), (reportMatches env 0 pages).trace[k]? = some ev →
        ∃ m, pages[k]? = some m ∧ ev = .consoleLog [matchLine env k m] ∧
          (7 / 10 : ℚ) ≤ m.certainty) := by
  have hmin : minimumCertainty = 7 / 10 := by norm_num [minimumCertainty]
  have hline : ∀ (k : Nat) (m : QueryMatch), pages[k]? = some m →
      (reportMatches env 0 pages).trace[k]? = some (.consoleLog [matchLine env k m]) := by
    intro k m hk
    have := reportMatches_getElem? env pages 0 k m hk
    rwa [Nat.zero_add] at this
  refine ⟨?_, reportMatches_length env pages 0, hline, ?_⟩
  · rw [← hmin]
    by_cases hne : pages = []
    · subst hne; rw [findRelevantDocumentation_nil hq]; rfl
    · rw [findRelevantDocumentation_cons hq hne, if_neg hne]; rfl
  · intro hstore k ev hev
    have hk : k < pages.length := by
      rw [← reportMatches_length env pages 0]
      exact (List.getElem?_eq_some_iff.1 hev).1
    have hm : pages[k]? = some pages[k] := List.getElem?_eq_getElem hk
    refine ⟨pages[k], hm, ?_, ?_⟩
    · have := hline k pages[k] hm
      rw [hev] at this
      exact Option.some.inj this
    · rw [← hmin]
      exact hstore _ _ _ hq _ (List.getElem?_mem hm)

/-- C5, at a store holding a pizza page with certainty `0.85` and an unrelated page with
certainty `0.4`, queried with "pizza dough recipe": exactly the pizza page is reported, as
rank 1 with certainty "0.85". -/
theorem reported_matches_meet_store_threshold_witness :
    HonoursCertainty thresholdStoreEnv ∧
    thresholdStoreEnv.nearText ["pizza dough recipe".toList] minimumCertainty = .ok [pizzaMatch] ∧
    (findRelevantDocumentation thresholdStoreEnv "pizza dough recipe".toList).trace =
      [nearTextEvent "pizza dough recipe".toList,
        .consoleLog ["🔍 Searching for relevant documentation based on prompt:".toList,
          "pizza dough recipe".toList],
        .consoleLog
          ["✅ Found 1 relevant documentation link(s) for prompt: \"pizza dough recipe\"".toList],
        .consoleLog
          [" 1. URL: https://www.loveandlemons.com/homemade-pizza/\n    Certainty: 0.85\n".toList]] ∧
    (reportMatches thresholdStoreEnv 0 [pizzaMatch]).trace.length = 1 ∧
    ∀ (k : Nat) (ev : Event), (reportMatches thresholdStoreEnv 0 [pizzaMatch]).trace[k]? = some ev →
      ∃ m, [pizzaMatch][k]? = some m ∧ ev = .consoleLog [matchLine thresholdStoreEnv k m] ∧
        (7 / 10 : ℚ) ≤ m.certainty :=
  have hstore : HonoursCertainty thresholdStoreEnv := by
    intro concepts threshold ms hms m hm
    have hms2 : [pizzaMatch, unrelatedMatch].filter (fun m => threshold ≤ m.certainty) = ms := by
      injection hms
    rw [← hms2] at hm
    simpa using (List.mem_filter.1 hm).2
  have hq : thresholdStoreEnv.nearText ["pizza dough recipe".toList] minimumCertainty =
      .ok [pizzaMatch] :=
    congrArg Except.ok (by decide :
      [pizzaMatch, unrelatedMatch].filter (fun m => minimumCertainty ≤ m.certainty) =
        [pizzaMatch])
  have h := reported_matches_meet_store_threshold thresholdStoreEnv "pizza dough recipe".toList
    [pizzaMatch] hq
  ⟨hstore, hq, by decide, h.2.1, h.2.2.2 hstore⟩

/-- C6, refuted as stated: when the store rejects the first write, the second page, which
has text, is not written. -/
theorem store_failure_truncates_writes :
    writesOf (addDocumentationPages writeFailsEnv twicePages).trace =
      [("https://api-docs.deepseek.com/".toList, "Some text".toList)] ∧
    expectedWrites writeFailsEnv 0 twicePages =
      [("https://api-docs.deepseek.com/".toList, "Some text".toList),
       ("https://api-docs.deepseek.com/".toList, "Some text".toList)] ∧
    ¬ (writesOf (addDocumentationPages writeFailsEnv twicePages).trace =
      expectedWrites writeFailsEnv 0 twicePages) := by
  refine ⟨by decide, by decide, by decide⟩

/-- C6, amended: the store writes of `addDocumentationPages` follow the input order: they
are an initial part of the pages with non-empty text, each with its own URL and text.  When
none of the writes of these pages raises, the run completes and the writes are all of these
pages, a URL that occurs twice with non-empty text being written twice.  When the write of
a page raises, the earlier ones having succeeded, the run is the one of the pages up to
that page: it is rejected with the error of the write, the write is its last effect, and
the writes are those of the pages up to that page, so that no later page is written. -/
theorem writes_follow_input_order (env : Env) (pages : List Page) :
    writesOf (addDocumentationPages env pages).trace <+: expectedWrites env 0 pages ∧
    ((∀ (k : Nat) (page : Page), pages[k]? = some page → extractedText env k page.url ≠ [] →
        env.dataCreate k page.url (extractedText env k page.url) = .ok ()) →
      (addDocumentationPages env pages).result = .ok () ∧
      writesOf (addDocumentationPages env pages).trace = expectedWrites env 0 pages ∧
      ∀ (j k : Nat) (url : JSString), j < k → pages[j]? = some ⟨url⟩ → pages[k]? = some ⟨url⟩ →
        extractedText env j url ≠ [] → extractedText env k url ≠ [] →
        List.Sublist [(url, extractedText env j url), (url, extractedText env k url)]
          (writesOf (addDocumentationPages env pages).trace)) ∧
    ∀ (k : Nat) (page : Page) (e : JSError), pages[k]? = some page →
      extractedText env k page.url ≠ [] →
      env.dataCreate k page.url (extractedText env k page.url) = .error e →
      (∀ (j : Nat) (p : Page), j < k → pages[j]? = some p → extractedText env j p.url ≠ [] →
        env.dataCreate j p.url (extractedText env j p.url) = .ok ()) →
      (addDocumentationPages env pages).result = .error e ∧
      (addDocumentationPages env pages).trace = (ingestFrom env 0 (pages.take (k + 1))).trace ∧
      (addDocumentationPages env pages).trace.getLast? =
        some (.dataCreate "DocumentationPage".toList page.url (extractedText env k page.url)) ∧
      writesOf (addDocumentationPages env pages).trace =
        expectedWrites env 0 (pages.take (k + 1)) := by
  have hw := writesOf_ingestFrom env pages 0
  refine ⟨by rw [writesOf_addDocumentationPages]; exact hw.1, fun hstore => ?_, ?_⟩
  · have hok := ingestFrom_ok_of_writes env pages 0 (by simpa only [Nat.zero_add] using hstore)
    have heq : writesOf (addDocumentationPages env pages).trace = expectedWrites env 0 pages := by
      rw [writesOf_addDocumentationPages]; exact hw.2 hok
    refine ⟨by rw [addDocumentationPages_result]; exact hok, heq, ?_⟩
    intro j k url hjk hj hk htj htk
    rw [heq]
    have := pair_sublist_expectedWrites env pages 0 j k ⟨url⟩ ⟨url⟩ hjk hj hk
      (by rwa [Nat.zero_add]) (by rwa [Nat.zero_add])
    simpa only [Nat.zero_add] using this
  · intro k page e hk ht hraise hbefore
    have h := ingestFrom_raise env pages 0 k page e hk (by rwa [Nat.zero_add])
      (by rwa [Nat.zero_add]) (by simpa only [Nat.zero_add] using hbefore)
    simp only [Nat.zero_add] at h
    rw [addDocumentationPages_of_error h.1]
    exact ⟨rfl, h.2.1, h.2.2.1, h.2.2.2⟩

/-- C6 amended, at a list holding the same URL twice with a store accepting the writes, where
the URL is written twice, and at the five seed pages with a store rejecting the write of the
second page, where the run ends with that write and the last three pages are not written. -/
theorem writes_follow_input_order_witness :
    writesOf (addDocumentationPages quietEnv twicePages).trace =
      [("https://api-docs.deepseek.com/".toList, "Some text".toList),
       ("https://api-docs.deepseek.com/".toList, "Some text".toList)] ∧
    (addDocumentationPages secondWriteFailsEnv docs).result = .error "store unavailable" ∧
    (addDocumentationPages secondWriteFailsEnv docs).trace.getLast? =
      some (.dataCreate "DocumentationPage".toList
        "https://www.interaction-design.org/literature/topics/color-theory".toList
        "Some text".toList) ∧
    writesOf (addDocumentationPages secondWriteFailsEnv docs).trace =
      [("https://www.loveandlemons.com/homemade-pizza/".toList, "Some text".toList),
       ("https://www.interaction-design.org/literature/topics/color-theory".toList,
        "Some text".toList)] :=
  have hall := (writes_follow_input_order quietEnv twicePages).2.1 fun _ _ _ _ => rfl
  have hraise := (writes_follow_input_order secondWriteFailsEnv docs).2.2 1
    ⟨"https://www.interaction-design.org/literature/topics/color-theory".toList⟩
    "store unavailable" rfl (by decide) rfl
    (fun j p hj _ _ => by
      have h0 : j = 0 := by omega
      subst h0
      rfl)
  ⟨hall.2.1.trans (by decide), hraise.1, hraise.2.2.1.trans (by decide),
    hraise.2.2.2.trans (by decide)⟩

/-- C7: when the result list of the store is empty, `findRelevantDocumentation` reports the
"No relevant documentation found" message after the search message, reports no match line,
and returns normally. -/
theorem empty_result_reports_none_found (env : Env) (userPrompt : JSString)
    (h : env.nearText [userPrompt] minimumCertainty = .ok []) :
    findRelevantDocumentation env userPrompt =
      ⟨[nearTextEvent userPrompt,
        .consoleLog ["🔍 Searching for relevant documentation based on prompt:".toList, userPrompt],
        .consoleLog ["❗ No relevant documentation found for:".toList, userPrompt]], .ok ()⟩ ∧
    ∀ ev ∈ (findRelevantDocumentation env userPrompt).trace,
      ∀ (k : Nat) (m : QueryMatch), ev ≠ .consoleLog [matchLine env k m] := by
  have hrun := findRelevantDocumentation_nil h
  refine ⟨hrun, ?_⟩
  rw [hrun]
  intro ev hev k m heq
  subst heq
  simp [nearTextEvent] at hev

/-- C7, at a store that finds nothing for "pizza dough recipe". -/
theorem empty_result_reports_none_found_witness :
    (findRelevantDocumentation quietEnv "pizza dough recipe".toList).result = .ok () ∧
    (findRelevantDocumentation quietEnv "pizza dough recipe".toList).trace.getLast? =
      some (.consoleLog ["❗ No relevant documentation found for:".toList,
        "pizza dough recipe".toList]) :=
  have h := (empty_result_reports_none_found quietEnv "pizza dough recipe".toList rfl).1
  ⟨by rw [h], by rw [h]; rfl⟩

/-- C8: for a non-empty result list of the store, whose certainties are non-negative and
below `10^21`, `findRelevantDocumentation` reports, after the search and count messages,
exactly one line per match, in the order of the list; the line at position `i`, counted
from 1, shows rank `i`, the URL of the `i`-th match and its certainty rounded to the
nearest hundredth, written with two decimal places. -/
theorem matches_reported_in_store_order (env : Env) (userPrompt : JSString)
    (pages : List QueryMatch) (hq : env.nearText [userPrompt] minimumCertainty = .ok pages)
    (hne : pages ≠ [])
    (hrange : ∀ m ∈ pages, 0 ≤ m.certainty ∧ m.certainty < 10 ^ 21) :
    ∃ lines : List Event,
      findRelevantDocumentation env userPrompt =
        ⟨[nearTextEvent userPrompt,
          .consoleLog ["🔍 Searching for relevant documentation based on prompt:".toList,
            userPrompt],
          .consoleLog ["✅ Found ".toList ++ decimal pages.length ++
            " relevant documentation link(s) for prompt: \"".toList ++ userPrompt ++
            "\"".toList]] ++ lines, .ok ()⟩ ∧
      lines.length = pages.length ∧
      ∀ (i : Nat) (m : QueryMatch), pages[i]? = some m →
        lines[i]? = some (.consoleLog [" ".toList ++ decimal (i + 1) ++ ". URL: ".toList ++ m.url ++
          "\n    Certainty: ".toList ++ showHundredths (roundHundredths m.certainty).toNat ++
          "\n".toList]) ∧
        |((roundHundredths m.certainty : ℤ) : ℚ) / 100 - m.certainty| ≤ 1 / 200 := by
  refine ⟨(reportMatches env 0 pages).trace, findRelevantDocumentation_cons hq hne,
    reportMatches_length env pages 0, ?_⟩
  intro i m hi
  have hm := hrange m (List.getElem?_mem hi)
  refine ⟨?_, roundHundredths_near m.certainty⟩
  have := reportMatches_getElem? env pages 0 i m hi
  rw [Nat.zero_add] at this
  rw [this, matchLine, toFixed_two env.numberToString m.certainty hm.1 hm.2]

/-- C8, at a store returning the unrelated page before the pizza page: the two lines come
in that order, with ranks 1 and 2 and certainties "0.40" and "0.85". -/
theorem matches_reported_in_store_order_witness :
    ∃ lines : List Event,
      (findRelevantDocumentation
        { quietEnv with nearText := fun _ _ => .ok [unrelatedMatch, pizzaMatch] }
        "pizza dough recipe".toList).trace =
        [nearTextEvent "pizza dough recipe".toList,
          .consoleLog ["🔍 Searching for relevant documentation based on prompt:".toList,
            "pizza dough recipe".toList],
          .consoleLog ["✅ Found 2 relevant documentation link(s) for prompt: \"pizza dough recipe\"".toList]]
          ++ lines ∧
      lines[0]? = some (.consoleLog
        [" 1. URL: https://stardewvalleywiki.com/Crops\n    Certainty: 0.40\n".toList]) ∧
      lines[1]? = some (.consoleLog
        [" 2. URL: https://www.loveandlemons.com/homemade-pizza/\n    Certainty: 0.85\n".toList]) :=
  have ⟨lines, h1, _, h3⟩ := matches_reported_in_store_order
    { quietEnv with nearText := fun _ _ => .ok [unrelatedMatch, pizzaMatch] }
    "pizza dough recipe".toList [unrelatedMatch, pizzaMatch] rfl (by simp)
    (by decide)
  have r0 : roundHundredths unrelatedMatch.certainty = 40 := by
    norm_num [roundHundredths, unrelatedMatch]
  have r1 : roundHundredths pizzaMatch.certainty = 85 := by
    norm_num [roundHundredths, pizzaMatch]
  ⟨lines, by rw [h1]; rfl, by rw [(h3 0 unrelatedMatch rfl).1, r0]; decide,
    by rw [(h3 1 pizzaMatch rfl).1, r1]; decide⟩

/-- C9, refuted as stated: when the schema reset fails, `main` is rejected, the handler of
the top level logs the failure and the process ends with exit status 0. -/
theorem handled_failure_exits_with_zero :
    (main resetFailsEnv).result = .error "store unavailable" ∧
    exitStatus (topLevel resetFailsEnv) = 0 := by
  refine ⟨rfl, rfl⟩

/-- C9, amended: when `main` is rejected, the handler of the top level logs the failure
with `console.error` as the last effect of the run and the top-level promise is fulfilled,
so that the exit status stays 0; when it is `createSchema` that raises, `main` is rejected
with that error and the run issues no store write and no query. -/
theorem failure_is_logged_at_top_level (env : Env) (e : JSError)
    (h : (main env).result = .error e) :
    topLevel env =
      ⟨(main env).trace ++ [.consoleError "❌ Error in main execution:".toList e], .ok ()⟩ ∧
    exitStatus (topLevel env) = 0 ∧
    ∀ e2, (createSchema env).result = .error e2 →
      (main env).result = .error e2 ∧
      ∀ ev ∈ (topLevel env).trace, ev.isStoreWrite = false ∧ ev.isQuery = false := by
  have htop := topLevel_of_error h
  refine ⟨htop, by rw [htop]; rfl, ?_⟩
  intro e2 h2
  have hmain := main_of_createSchema_error h2
  have he : e2 = e := by
    rw [hmain] at h
    injection h
  subst he
  refine ⟨by rw [hmain], ?_⟩
  rw [htop, hmain]
  intro ev hev
  rcases List.mem_append.1 hev with hev | hev
  · exact createSchema_quiet env ev hev
  · simp at hev
    subst hev
    simp [Event.isStoreWrite, Event.isQuery]

/-- C9 amended, at a store rejecting the first write: the failure is the last thing
logged. -/
theorem failure_is_logged_at_top_level_witness :
    (main writeFailsEnv).result = .error "store unavailable" ∧
    (topLevel writeFailsEnv).trace.getLast? =
      some (.consoleError "❌ Error in main execution:".toList "store unavailable") ∧
    (topLevel writeFailsEnv).result = .ok () :=
  have h := (failure_is_logged_at_top_level writeFailsEnv "store unavailable" rfl).1
  ⟨rfl, by rw [h]; simp, by rw [h]⟩

/-- C10: the normalised text of a body text is its words, the maximal runs of
non-whitespace characters, in the same order and joined by single spaces; the words of the
normalised text are those of the body text, its non-whitespace characters are those of the
body text in the same order, and normalising a normalised text changes nothing. -/
theorem normalise_keeps_words (t : JSString) :
    normalise t = joinWords (words t) ∧
    words (normalise t) = words t ∧
    (normalise t).filter (fun c => !isJsSpace c) = t.filter (fun c => !isJsSpace c) ∧
    normalise (normalise t) = normalise t := by
  have h1 := normalise_eq_joinWords t
  have h2 : words (normalise t) = words t := by
    rw [h1]; exact words_joinWords _ (wordList_words t)
  refine ⟨h1, h2, filter_normalise t, ?_⟩
  rw [normalise_eq_joinWords (normalise t), h2, ← h1]

end DocQuery
